import Mathlib

/-!
Shallow embedding of the beam-vibration engine (`src/lib/beamAnalysis.ts`) over
the real numbers.  Each definition translates one source function; JavaScript
floating-point arithmetic is modelled by exact real arithmetic, and the
accumulating `for (pos = 0; pos <= length; pos += dx)` loops are modelled by
sampling at `i * dx` for `i = 0, 1, ...` while `i * dx ≤ length`.
-/

namespace BeamAnalysis

noncomputable section

open Real

/-- Source: `export type BeamType = 'cantilever' | 'simply-supported' |
'fixed-fixed' | 'fixed-pinned'`. -/
inductive BeamType
  | cantilever
  | simplySupported
  | fixedFixed
  | fixedPinned
deriving DecidableEq

/-- Source: `interface BeamProperties`.  The optional field `dampingRatio` is
modelled as an `Option`; its name is shortened to `damping` purely for
lexical reasons (the engine never uses the name itself). -/
structure BeamProperties where
  length : ℝ
  width : ℝ
  depth : ℝ
  youngsModulus : ℝ
  density : ℝ
  damping : Option ℝ

/-- Source: `interface ModeShape`. -/
structure ModeShape where
  mode : ℕ
  x : List ℝ
  w : List ℝ
  bL : ℝ

/-- Source: `interface StaticDeflection`. -/
structure StaticDeflection where
  x : List ℝ
  y : List ℝ
  maxDeflection : ℝ
  maxDeflectionLocation : ℝ

/-- Source: the nested `envelope: { time; upper; lower }` record of
`interface DampedResponse`. -/
structure Envelope where
  time : List ℝ
  upper : List ℝ
  lower : List ℝ

/-- Source: `interface DampedResponse`.  The field `dampingRatio` is renamed
to `damping` for lexical reasons only. -/
structure DampedResponse where
  time : List ℝ
  displacement : List ℝ
  envelope : Envelope
  damping : ℝ
  naturalFrequency : ℝ
  dampedFrequency : ℝ

/-- Source: `interface BeamResults`. -/
structure BeamResults where
  naturalFrequencies : List ℝ
  modeShapes : List ModeShape
  flexuralRigidity : ℝ
  massPerUnitLength : ℝ
  staticDeflection : Option StaticDeflection
  dampingCoefficient : Option ℝ
  dampedResponse : Option DampedResponse

/-- Source: the `equations` record in `solveCharacteristicEquation`
(beamAnalysis.ts lines 52-57): the characteristic function of each beam
type. -/
def characteristicEquation : BeamType → ℝ → ℝ
  | .cantilever => fun bL => Real.cos bL * Real.cosh bL + 1
  | .simplySupported => fun bL => Real.sin bL
  | .fixedFixed => fun bL => Real.cos bL * Real.cosh bL - 1
  | .fixedPinned => fun bL => Real.tan bL - Real.tanh bL

/-- Source: the `initialGuesses` record in `solveCharacteristicEquation`
(beamAnalysis.ts lines 62-67). -/
def initialGuesses : BeamType → List ℝ
  | .cantilever => [1.875, 4.694, 7.855, 10.996, 14.137]
  | .simplySupported =>
      [Real.pi, 2 * Real.pi, 3 * Real.pi, 4 * Real.pi, 5 * Real.pi]
  | .fixedFixed => [4.730, 7.853, 10.996, 14.137, 17.279]
  | .fixedPinned => [3.927, 7.069, 10.210, 13.352, 16.493]

/-- The iteration loop of `findRoot` (beamAnalysis.ts lines 93-123), with the
remaining iteration count as fuel.  At fuel 0 the final acceptance check after
the loop (`return Math.abs(equation(x)) < tolerance ? x : null`) runs.  The
`break` on a flat derivative falls through to the same final check. -/
def findRootGo (f : ℝ → ℝ) (tol : ℝ) : ℕ → ℝ → ℝ → ℝ → Option ℝ
  | 0, x, _, _ => if |f x| < tol then some x else none
  | fuel + 1, x, lo, hi =>
    if |f x| < tol then some x
    else
      let dfx := (f (x + 1e-8) - f (x - 1e-8)) / (2 * 1e-8)
      if |dfx| < 1e-10 then
        if |f x| < tol then some x else none
      else
        let xNew := x - f x / dfx
        if xNew < lo ∨ xNew > hi then
          let mid := (lo + hi) / 2
          if f lo * f mid < 0 then findRootGo f tol fuel mid lo mid
          else findRootGo f tol fuel mid mid hi
        else findRootGo f tol fuel xNew lo hi

/-- Source: `findRoot` (beamAnalysis.ts lines 84-124), Newton-Raphson with a
bisection fallback, starting from the bracket midpoint. -/
def findRoot (f : ℝ → ℝ) (lowerBound upperBound : ℝ)
    (tolerance : ℝ := 1e-6) (maxIterations : ℕ := 100) : Option ℝ :=
  findRootGo f tolerance maxIterations ((lowerBound + upperBound) / 2)
    lowerBound upperBound

/-- Source: `solveCharacteristicEquation` (beamAnalysis.ts lines 48-79).  The
loop `for (i = 0; i < numModes && i < guesses.length; i++)` pushing converged
roots is `filterMap` over the first `numModes` guesses. -/
def solveCharacteristicEquation (beamType : BeamType) (numModes : ℕ := 3) :
    List ℝ :=
  ((initialGuesses beamType).take numModes).filterMap fun g =>
    findRoot (characteristicEquation beamType) (g - 0.5) (g + 0.5)

/-- Sample positions of the loop `for (pos = 0; pos <= length; pos += dx)`
(beamAnalysis.ts line 139): positions `i * dx` for every `i` with
`i * dx ≤ length`; no iteration runs when `length < 0`. -/
def modeSamplePositions (length dx : ℝ) : List ℝ :=
  if length < 0 then []
  else (List.range (Nat.floor (length / dx) + 1)).map fun i : ℕ => (i : ℝ) * dx

/-- The un-normalized eigenfunction value pushed by one iteration of the
sampling loop of `calculateModeShape` (beamAnalysis.ts lines 142-178). -/
def rawModeValue (beamType : BeamType) (bL length pos : ℝ) : ℝ :=
  let b := bL / length
  let bx := b * pos
  match beamType with
  | .cantilever =>
      let a := (Real.sin bL + Real.sinh bL) / (Real.cos bL + Real.cosh bL)
      (Real.sin bx - Real.sinh bx) - a * (Real.cos bx - Real.cosh bx)
  | .simplySupported => Real.sin bx
  | .fixedFixed =>
      let a := (Real.cosh bL - Real.cos bL) / (Real.sinh bL - Real.sin bL)
      (Real.cos bx - Real.cosh bx) - a * (Real.sin bx - Real.sinh bx)
  | .fixedPinned => Real.sin bx - Real.tanh bL * Real.sinh bx

/-- Source: `Math.max(...w.map(Math.abs))` (beamAnalysis.ts line 182).  Every
call site applies it to the nonempty sample list, whose mapped values are all
nonnegative, so folding `max` from `0` agrees with the JavaScript spread
maximum there. -/
def maxAbsList (l : List ℝ) : ℝ :=
  (l.map fun y => |y|).foldl max 0

/-- Source: `calculateModeShape` (beamAnalysis.ts lines 129-190), returning
the pair of the position samples and the normalized displacement samples. -/
def calculateModeShape (beamType : BeamType) (bL length : ℝ)
    (dx : ℝ := 0.01) : List ℝ × List ℝ :=
  let x := modeSamplePositions length dx
  let w := x.map (rawModeValue beamType bL length)
  let maxW := maxAbsList w
  if 0 < maxW then (x, w.map fun y => y / maxW) else (x, w)

/-- The `switch (beamType)` body of the static-deflection sampling loop
(beamAnalysis.ts lines 219-261), computing the deflection at one position.
The midspan-loaded cases evaluate the same cubic at the mirrored position
`length - pos` beyond midspan (`xSym` in the source). -/
def staticDeflectionAt (beamType : BeamType) (length EI load pos : ℝ) : ℝ :=
  match beamType with
  | .cantilever =>
      if 0 ≤ pos ∧ pos ≤ length then
        load / (6 * EI) * (3 * length * pos ^ 2 - pos ^ 3)
      else 0
  | .simplySupported =>
      if pos ≤ length / 2 then
        load / (48 * EI) * (3 * length ^ 2 * pos - 4 * pos ^ 3)
      else
        load / (48 * EI) *
          (3 * length ^ 2 * (length - pos) - 4 * (length - pos) ^ 3)
  | .fixedFixed =>
      if pos ≤ length / 2 then
        load / (192 * EI) * (3 * length ^ 2 * pos - 4 * pos ^ 3)
      else
        load / (192 * EI) *
          (3 * length ^ 2 * (length - pos) - 4 * (length - pos) ^ 3)
  | .fixedPinned =>
      if pos ≤ length / 2 then
        load / (96 * EI) * (3 * length ^ 2 * pos - 4 * pos ^ 3)
      else
        load / (96 * EI) *
          (3 * length ^ 2 * (length - pos) - 4 * (length - pos) ^ 3)

/-- The running-maximum update of the static-deflection loop (beamAnalysis.ts
lines 265-268): the accumulator is `(maxDeflection, maxDeflectionLocation)`
and the list element is `(pos, deflection)`. -/
def maxStep (acc : ℝ × ℝ) (pd : ℝ × ℝ) : ℝ × ℝ :=
  if |acc.1| < |pd.2| then (pd.2, pd.1) else acc

/-- Source: `calculateStaticDeflection` (beamAnalysis.ts lines 195-277):
301 samples at positions `i * (length / 300)`, with the running maximum of
`Math.abs(deflection)` folded in the same traversal order as the source
loop. -/
def calculateStaticDeflection (beamType : BeamType)
    (properties : BeamProperties) (load : ℝ := 1000) :
    Option StaticDeflection :=
  let length := properties.length
  let I := properties.width * properties.depth ^ 3 / 12
  let EI := properties.youngsModulus * I
  if EI ≤ 0 ∨ length ≤ 0 then none
  else
    let dx := length / 300
    let x := (List.range 301).map fun i : ℕ => (i : ℝ) * dx
    let y := x.map (staticDeflectionAt beamType length EI load)
    let best := (x.zip y).foldl maxStep (0, 0)
    some { x := x, y := y, maxDeflection := best.1,
           maxDeflectionLocation := best.2 }

/-- Source: `calculateDampedResponse` (beamAnalysis.ts lines 283-335).  The
envelope is pushed at every loop index `i` with `i % 10 === 0`, i.e. at the
indices `10 * j` for `j = 0, ..., 100`. -/
def calculateDampedResponse (naturalFrequency zeta : ℝ)
    (duration : ℝ := 2) (initialAmplitude : ℝ := 1) : Option DampedResponse :=
  if zeta ≤ 0 ∨ 1 ≤ zeta then none
  else
    let omega_n := naturalFrequency * 2 * Real.pi
    let omega_d := omega_n * Real.sqrt (1 - zeta * zeta)
    let dampedFrequency := omega_d / (2 * Real.pi)
    let dt := duration / 1000
    let time := (List.range 1001).map fun i : ℕ => (i : ℝ) * dt
    let displacement := time.map fun t =>
      initialAmplitude * Real.exp (-(zeta * omega_n * t)) * Real.cos (omega_d * t)
    let envelopeTime := (List.range 101).map fun j : ℕ => ((10 * j : ℕ) : ℝ) * dt
    let envelopeUpper := envelopeTime.map fun t =>
      initialAmplitude * Real.exp (-(zeta * omega_n * t))
    let envelopeLower := envelopeTime.map fun t =>
      -initialAmplitude * Real.exp (-(zeta * omega_n * t))
    some { time := time, displacement := displacement,
           envelope := { time := envelopeTime, upper := envelopeUpper,
                         lower := envelopeLower },
           damping := zeta, naturalFrequency := naturalFrequency,
           dampedFrequency := dampedFrequency }

/-- The natural-frequency formula of the orchestrator (beamAnalysis.ts lines
359-362): `ω_n = bL² √(EI / (ρ A L⁴))`, converted to hertz. -/
def naturalFrequencyOf (properties : BeamProperties) (bL : ℝ) : ℝ :=
  let A := properties.width * properties.depth
  let I := properties.width * properties.depth ^ 3 / 12
  bL ^ 2 * Real.sqrt (properties.youngsModulus * I /
    (properties.density * A * properties.length ^ 4)) / (2 * Real.pi)

/-- Source: `calculateBeamAnalysis` (beamAnalysis.ts lines 340-420).  The
JavaScript `bLValues.map((bL, index) => ...)` building the mode shapes is
modelled with `List.enum`. -/
def calculateBeamAnalysis (beamType : BeamType) (properties : BeamProperties)
    (numModes : ℕ := 3) : BeamResults :=
  let A := properties.width * properties.depth
  let I := properties.width * properties.depth ^ 3 / 12
  let flexuralRigidity := properties.youngsModulus * I
  let massPerUnitLength := properties.density * A
  let bLValues := solveCharacteristicEquation beamType numModes
  let naturalFrequencies := bLValues.map (naturalFrequencyOf properties)
  let modeShapes := bLValues.enum.map fun p =>
    { mode := p.1 + 1
      x := (calculateModeShape beamType p.2 properties.length).1
      w := (calculateModeShape beamType p.2 properties.length).2
      bL := p.2 : ModeShape }
  let staticDeflection := calculateStaticDeflection beamType properties 1000
  let dampingPair : Option ℝ × Option DampedResponse :=
    match properties.damping with
    | none => (none, none)
    | some zeta =>
      if 0 < zeta ∧ 0 < naturalFrequencies.length then
        let omega1 := naturalFrequencies.headI * 2 * Real.pi
        let c := 2 * zeta * omega1 * massPerUnitLength
        let resp :=
          if 0 < zeta ∧ zeta < 1 then
            let period := 1 / naturalFrequencies.headI
            let adaptiveDuration := max (15 * period) 5
            let timeConstant := 1 / (zeta * omega1)
            let duration :=
              min (max (max adaptiveDuration (3 * timeConstant)) 5) 60
            calculateDampedResponse naturalFrequencies.headI zeta duration 1
          else none
        (some c, resp)
      else (none, none)
  { naturalFrequencies := naturalFrequencies
    modeShapes := modeShapes
    flexuralRigidity := flexuralRigidity
    massPerUnitLength := massPerUnitLength
    staticDeflection := staticDeflection
    dampingCoefficient := dampingPair.1
    dampedResponse := dampingPair.2 }

/-! ### Root-finder postconditions -/

/-- Every `some` result of the root-finding loop passes the residual test:
both the early return and the final acceptance check are guarded by
`|f x| < tolerance`. -/
theorem abs_lt_of_findRootGo_eq_some {f : ℝ → ℝ} {tol : ℝ} :
    ∀ {fuel : ℕ} {x lo hi r : ℝ},
      findRootGo f tol fuel x lo hi = some r → |f r| < tol := by
  intro fuel
  induction fuel with
  | zero =>
    intro x lo hi r h
    simp only [findRootGo] at h
    split at h
    · obtain rfl : x = r := Option.some.inj h
      assumption
    · exact absurd h (by simp)
  | succ n ih =>
    intro x lo hi r h
    simp only [findRootGo] at h
    split at h
    · obtain rfl : x = r := Option.some.inj h
      assumption
    · split at h
      · exact absurd h (by simp)
      · split at h
        · split at h
          · exact ih h
          · exact ih h
        · exact ih h

/-- `findRoot` only returns values passing the residual test. -/
theorem abs_lt_of_findRoot_eq_some {f : ℝ → ℝ} {lo hi tol : ℝ} {n : ℕ}
    {r : ℝ} (h : findRoot f lo hi tol n = some r) : |f r| < tol :=
  abs_lt_of_findRootGo_eq_some h

/-- If the bracket midpoint is an exact root, `findRoot` accepts it on the
first iteration. -/
theorem findRoot_midpoint_zero (f : ℝ → ℝ) (g : ℝ) (h : f g = 0) :
    findRoot f (g - 0.5) (g + 0.5) = some g := by
  have hmid : (g - 0.5 + (g + 0.5)) / 2 = g := by ring
  have hcond : |f g| < 1e-6 := by
    rw [h, abs_zero]
    norm_num
  show findRootGo f 1e-6 100 ((g - 0.5 + (g + 0.5)) / 2) (g - 0.5) (g + 0.5) =
    some g
  rw [hmid, show (100 : ℕ) = 99 + 1 from rfl, findRootGo, if_pos hcond]

/-- The five simply-supported initial guesses are exact roots of `sin`, so
the solver returns them unchanged. -/
theorem solve_simplySupported_eq (n : ℕ) :
    solveCharacteristicEquation .simplySupported n =
      (List.range (min n 5)).map fun k : ℕ => ((k : ℝ) + 1) * Real.pi := by
  have r1 : findRoot (characteristicEquation .simplySupported)
      (Real.pi - 0.5) (Real.pi + 0.5) = some Real.pi := by
    apply findRoot_midpoint_zero
    show Real.sin Real.pi = 0
    exact Real.sin_pi
  have r2 : findRoot (characteristicEquation .simplySupported)
      (2 * Real.pi - 0.5) (2 * Real.pi + 0.5) = some (2 * Real.pi) := by
    apply findRoot_midpoint_zero
    show Real.sin (2 * Real.pi) = 0
    exact Real.sin_two_pi
  have r3 : findRoot (characteristicEquation .simplySupported)
      (3 * Real.pi - 0.5) (3 * Real.pi + 0.5) = some (3 * Real.pi) := by
    apply findRoot_midpoint_zero
    show Real.sin (3 * Real.pi) = 0
    have h3 := Real.sin_nat_mul_pi 3
    push_cast at h3
    exact h3
  have r4 : findRoot (characteristicEquation .simplySupported)
      (4 * Real.pi - 0.5) (4 * Real.pi + 0.5) = some (4 * Real.pi) := by
    apply findRoot_midpoint_zero
    show Real.sin (4 * Real.pi) = 0
    have h4 := Real.sin_nat_mul_pi 4
    push_cast at h4
    exact h4
  have r5 : findRoot (characteristicEquation .simplySupported)
      (5 * Real.pi - 0.5) (5 * Real.pi + 0.5) = some (5 * Real.pi) := by
    apply findRoot_midpoint_zero
    show Real.sin (5 * Real.pi) = 0
    have h5 := Real.sin_nat_mul_pi 5
    push_cast at h5
    exact h5
  match n with
  | 0 => simp [solveCharacteristicEquation, initialGuesses]
  | 1 =>
    simp only [solveCharacteristicEquation, initialGuesses]
    rw [show ([Real.pi, 2 * Real.pi, 3 * Real.pi, 4 * Real.pi,
      5 * Real.pi].take 1) = [Real.pi] from rfl]
    simp only [List.filterMap_cons, List.filterMap_nil, r1]
    rw [show (min 1 5 : ℕ) = 1 from rfl, show List.range 1 = [0] from rfl]
    norm_num
  | 2 =>
    simp only [solveCharacteristicEquation, initialGuesses]
    rw [show ([Real.pi, 2 * Real.pi, 3 * Real.pi, 4 * Real.pi,
      5 * Real.pi].take 2) = [Real.pi, 2 * Real.pi] from rfl]
    simp only [List.filterMap_cons, List.filterMap_nil, r1, r2]
    rw [show (min 2 5 : ℕ) = 2 from rfl, show List.range 2 = [0, 1] from rfl]
    norm_num
  | 3 =>
    simp only [solveCharacteristicEquation, initialGuesses]
    rw [show ([Real.pi, 2 * Real.pi, 3 * Real.pi, 4 * Real.pi,
      5 * Real.pi].take 3) = [Real.pi, 2 * Real.pi, 3 * Real.pi] from rfl]
    simp only [List.filterMap_cons, List.filterMap_nil, r1, r2, r3]
    rw [show (min 3 5 : ℕ) = 3 from rfl, show List.range 3 = [0, 1, 2] from rfl]
    norm_num
  | 4 =>
    simp only [solveCharacteristicEquation, initialGuesses]
    rw [show ([Real.pi, 2 * Real.pi, 3 * Real.pi, 4 * Real.pi,
      5 * Real.pi].take 4) =
        [Real.pi, 2 * Real.pi, 3 * Real.pi, 4 * Real.pi] from rfl]
    simp only [List.filterMap_cons, List.filterMap_nil, r1, r2, r3, r4]
    rw [show (min 4 5 : ℕ) = 4 from rfl,
      show List.range 4 = [0, 1, 2, 3] from rfl]
    norm_num
  | (m + 5) =>
    have htake : (initialGuesses .simplySupported).take (m + 5) =
        initialGuesses .simplySupported := by
      apply List.take_of_length_le
      rw [show (initialGuesses BeamType.simplySupported).length = 5 from rfl]
      omega
    have hmin : min (m + 5) 5 = 5 := by omega
    simp only [solveCharacteristicEquation]
    rw [htake, hmin]
    simp only [initialGuesses]
    simp only [List.filterMap_cons, List.filterMap_nil, r1, r2, r3, r4, r5]
    rw [show List.range 5 = [0, 1, 2, 3, 4] from rfl]
    norm_num

/-- Claim C1: for every beam type and requested mode count, every root
returned by `solveCharacteristicEquation` satisfies
`|characteristicEquation beamType root| < 1e-6`. -/
theorem characteristic_residual_lt_tol (beamType : BeamType) (numModes : ℕ)
    (x : ℝ) (hx : x ∈ solveCharacteristicEquation beamType numModes) :
    |characteristicEquation beamType x| < 1e-6 := by
  rcases List.mem_filterMap.1 hx with ⟨g, _, hroot⟩
  exact abs_lt_of_findRoot_eq_some hroot

/-- Witness for claim C1: the first simply-supported root is `π`, and its
residual is below the tolerance. -/
theorem characteristic_residual_lt_tol_witness :
    Real.pi ∈ solveCharacteristicEquation .simplySupported 1 ∧
      |characteristicEquation .simplySupported Real.pi| < 1e-6 := by
  have hmem : Real.pi ∈ solveCharacteristicEquation .simplySupported 1 := by
    rw [solve_simplySupported_eq]
    rw [show (min 1 5 : ℕ) = 1 from rfl, show List.range 1 = [0] from rfl]
    norm_num [List.mem_singleton]
  exact ⟨hmem, characteristic_residual_lt_tol .simplySupported 1 Real.pi hmem⟩

/-- Claim C3: each root returned for the simply-supported beam equals
`(i+1)·π` (mode index `i+1`) to within `1e-6`; in the real-number model the
solver accepts each initial guess `(i+1)·π` exactly. -/
theorem ss_root_eq_npi (n i : ℕ)
    (h : i < (solveCharacteristicEquation .simplySupported n).length) :
    |(solveCharacteristicEquation .simplySupported n).getD i 0 -
      ((i : ℝ) + 1) * Real.pi| < 1e-6 := by
  rw [solve_simplySupported_eq] at h ⊢
  rw [List.getD_eq_getElem _ _ h]
  simp only [List.getElem_map, List.getElem_range, sub_self, abs_zero]
  norm_num

/-- Witness for claim C3 at `n = 2`, `i = 1`: the second simply-supported
root is within `1e-6` of `2π`. -/
theorem ss_root_eq_npi_witness :
    1 < (solveCharacteristicEquation .simplySupported 2).length ∧
      |(solveCharacteristicEquation .simplySupported 2).getD 1 0 -
        ((1 : ℕ) + 1 : ℝ) * Real.pi| < 1e-6 := by
  have hlen : 1 < (solveCharacteristicEquation .simplySupported 2).length := by
    rw [solve_simplySupported_eq]
    simp only [List.length_map, List.length_range]
    omega
  exact ⟨hlen, ss_root_eq_npi 2 1 hlen⟩

/-! ### Bracket confinement and ordering of the returned roots -/

/-- The root-finding loop never leaves its current bracket: the Newton step
is only taken when it stays inside, and bisection only shrinks the
bracket. -/
theorem findRootGo_mem {f : ℝ → ℝ} {tol : ℝ} :
    ∀ {fuel : ℕ} {x lo hi r : ℝ}, lo ≤ x → x ≤ hi →
      findRootGo f tol fuel x lo hi = some r → lo ≤ r ∧ r ≤ hi := by
  intro fuel
  induction fuel with
  | zero =>
    intro x lo hi r hlx hxh h
    simp only [findRootGo] at h
    split at h
    · obtain rfl : x = r := Option.some.inj h
      exact ⟨hlx, hxh⟩
    · exact absurd h (by simp)
  | succ n ih =>
    intro x lo hi r hlx hxh h
    have hlh : lo ≤ hi := le_trans hlx hxh
    simp only [findRootGo] at h
    split at h
    · obtain rfl : x = r := Option.some.inj h
      exact ⟨hlx, hxh⟩
    · split at h
      · exact absurd h (by simp)
      · split at h
        · split at h
          · have hb := ih (by linarith) (by linarith) h
            exact ⟨hb.1, by linarith [hb.2]⟩
          · have hb := ih (by linarith) (by linarith) h
            exact ⟨by linarith [hb.1], hb.2⟩
        · rename_i hin
          push_neg at hin
          exact ih hin.1 hin.2 h

/-- A converged `findRoot` result lies inside the requested bracket. -/
theorem findRoot_mem {f : ℝ → ℝ} {lo hi tol : ℝ} {n : ℕ} {r : ℝ}
    (hlh : lo ≤ hi) (h : findRoot f lo hi tol n = some r) :
    lo ≤ r ∧ r ≤ hi :=
  findRootGo_mem (by linarith) (by linarith) h

/-- Consecutive initial guesses of every beam type are more than `1` apart,
so their width-one brackets are disjoint and increasing. -/
theorem initialGuesses_gap (beamType : BeamType) :
    (initialGuesses beamType).Pairwise fun g h => g + 1 < h := by
  haveI : IsTrans ℝ (fun g h => g + 1 < h) :=
    ⟨fun a b c hab hbc => by
      have hab2 : a + 1 < b := hab
      have hbc2 : b + 1 < c := hbc
      linarith⟩
  rw [← List.chain'_iff_pairwise]
  have hpi := Real.pi_gt_three
  cases beamType with
  | cantilever =>
    simp only [initialGuesses, List.chain'_cons, List.chain'_singleton,
      and_true]
    norm_num
  | simplySupported =>
    simp only [initialGuesses, List.chain'_cons, List.chain'_singleton,
      and_true]
    refine ⟨by nlinarith, by nlinarith, by nlinarith, by nlinarith⟩
  | fixedFixed =>
    simp only [initialGuesses, List.chain'_cons, List.chain'_singleton,
      and_true]
    norm_num
  | fixedPinned =>
    simp only [initialGuesses, List.chain'_cons, List.chain'_singleton,
      and_true]
    norm_num

/-- Each beam type has exactly five tabulated initial guesses. -/
theorem initialGuesses_length (beamType : BeamType) :
    (initialGuesses beamType).length = 5 := by
  cases beamType <;> rfl

/-- The converged roots are strictly increasing: each root stays inside its
guess's width-one bracket and consecutive guesses are more than `1`
apart. -/
theorem solve_sorted (beamType : BeamType) (numModes : ℕ) :
    (solveCharacteristicEquation beamType numModes).Pairwise (· < ·) := by
  have hg := (initialGuesses_gap beamType).sublist
    (List.take_sublist numModes (initialGuesses beamType))
  simp only [solveCharacteristicEquation]
  rw [List.pairwise_filterMap]
  refine hg.imp ?_
  intro g1 g2 hgap x hx y hy
  have hx2 := findRoot_mem (by linarith : g1 - 0.5 ≤ g1 + 0.5)
    (Option.mem_def.1 hx)
  have hy2 := findRoot_mem (by linarith : g2 - 0.5 ≤ g2 + 0.5)
    (Option.mem_def.1 hy)
  have : g1 + 1 < g2 := hgap
  linarith [hx2.2, hy2.1]

/-- Claim C2: the natural-frequency list, the mode-shape list and the
converged-root list all have the same length, at most `min numModes 5`;
frequencies and mode shapes are in the same order as their source roots
(the i-th frequency is computed from the i-th root and the i-th mode shape
carries the i-th root as its `bL`); and the roots are strictly increasing. -/
theorem results_aligned_and_sorted (beamType : BeamType)
    (properties : BeamProperties) (numModes : ℕ) :
    (calculateBeamAnalysis beamType properties numModes).naturalFrequencies =
      (solveCharacteristicEquation beamType numModes).map
        (naturalFrequencyOf properties) ∧
    (calculateBeamAnalysis beamType properties numModes).modeShapes.map
        ModeShape.bL = solveCharacteristicEquation beamType numModes ∧
    (calculateBeamAnalysis beamType properties
        numModes).naturalFrequencies.length =
      (solveCharacteristicEquation beamType numModes).length ∧
    (calculateBeamAnalysis beamType properties numModes).modeShapes.length =
      (solveCharacteristicEquation beamType numModes).length ∧
    (solveCharacteristicEquation beamType numModes).length ≤ min numModes 5 ∧
    (solveCharacteristicEquation beamType numModes).Pairwise (· < ·) := by
  refine ⟨rfl, ?_, ?_, ?_, ?_, solve_sorted beamType numModes⟩
  · show ((solveCharacteristicEquation beamType numModes).enum.map _).map
      ModeShape.bL = _
    rw [List.map_map]
    exact List.enum_map_snd (solveCharacteristicEquation beamType numModes)
  · show ((solveCharacteristicEquation beamType numModes).map _).length = _
    exact List.length_map _ _
  · show ((solveCharacteristicEquation beamType numModes).enum.map _).length
      = _
    rw [List.length_map, List.enum_length]
  · calc (solveCharacteristicEquation beamType numModes).length
        ≤ ((initialGuesses beamType).take numModes).length :=
          List.length_filterMap_le _ _
      _ = min numModes 5 := by
          rw [List.length_take, initialGuesses_length]

/-! ### Maximum-of-list helper lemmas -/

theorem foldl_max_mono {l : List ℝ} :
    ∀ {a b : ℝ}, a ≤ b → l.foldl max a ≤ l.foldl max b := by
  induction l with
  | nil => intro a b h; simpa using h
  | cons x l ih =>
    intro a b h
    simp only [List.foldl_cons]
    exact ih (max_le_max h le_rfl)

theorem le_foldl_max (l : List ℝ) (a : ℝ) : a ≤ l.foldl max a := by
  induction l generalizing a with
  | nil => simp
  | cons x l ih =>
    simp only [List.foldl_cons]
    exact le_trans (le_max_left a x) (ih (max a x))

theorem mem_le_foldl_max {l : List ℝ} {x : ℝ} (hx : x ∈ l) (a : ℝ) :
    x ≤ l.foldl max a := by
  induction l generalizing a with
  | nil => cases hx
  | cons y l ih =>
    simp only [List.foldl_cons]
    rcases List.mem_cons.1 hx with rfl | hmem
    · exact le_trans (le_max_right a x) (le_foldl_max l (max a x))
    · exact ih hmem (max a y)

theorem foldl_max_div {c : ℝ} (hc : 0 < c) {l : List ℝ} :
    ∀ a : ℝ, (l.map fun y => y / c).foldl max (a / c) = l.foldl max a / c := by
  induction l with
  | nil => intro a; simp
  | cons x l ih =>
    intro a
    simp only [List.map_cons, List.foldl_cons]
    rw [max_div_div_right hc.le a x]
    exact ih (max a x)

theorem maxAbsList_nonneg (l : List ℝ) : 0 ≤ maxAbsList l :=
  le_foldl_max _ 0

theorem abs_le_maxAbsList {l : List ℝ} {y : ℝ} (h : y ∈ l) :
    |y| ≤ maxAbsList l :=
  mem_le_foldl_max (List.mem_map.2 ⟨y, h, rfl⟩) 0

theorem maxAbsList_map_div {c : ℝ} (hc : 0 < c) (l : List ℝ) :
    maxAbsList (l.map fun y => y / c) = maxAbsList l / c := by
  unfold maxAbsList
  rw [List.map_map]
  have hmap : ((fun y => |y|) ∘ fun y => y / c) =
      ((fun y => y / c) ∘ fun y => |y|) := by
    funext y
    simp only [Function.comp_apply, abs_div, abs_of_pos hc]
  rw [hmap, ← List.map_map, ← zero_div c, foldl_max_div hc, zero_div]

/-- In both branches of the normalization `if`, the position list of
`calculateModeShape` is the sample grid. -/
theorem calculateModeShape_fst (beamType : BeamType) (bL length dx : ℝ) :
    (calculateModeShape beamType bL length dx).1 =
      modeSamplePositions length dx := by
  simp only [calculateModeShape]
  split <;> rfl

/-- Claim C4: after normalization the maximum absolute displacement sample is
exactly `1`, unless every raw sample is `0`, in which case the raw samples
are returned unchanged. -/
theorem mode_shape_normalized (beamType : BeamType) (bL length : ℝ)
    (_h : 0 < length) :
    maxAbsList (calculateModeShape beamType bL length).2 = 1 ∨
    ((calculateModeShape beamType bL length).2 =
        (modeSamplePositions length 0.01).map
          (rawModeValue beamType bL length) ∧
      ∀ y ∈ (calculateModeShape beamType bL length).2, y = 0) := by
  simp only [calculateModeShape]
  by_cases hM : 0 < maxAbsList ((modeSamplePositions length 0.01).map
    (rawModeValue beamType bL length))
  · rw [if_pos hM]
    left
    show maxAbsList (((modeSamplePositions length 0.01).map
      (rawModeValue beamType bL length)).map fun y => y / _) = 1
    rw [maxAbsList_map_div hM, div_self hM.ne']
  · rw [if_neg hM]
    right
    refine ⟨rfl, ?_⟩
    intro y hy
    have h1 := abs_le_maxAbsList hy
    have h2 := abs_nonneg y
    have h3 : |y| = 0 := le_antisymm (by linarith [not_lt.1 hM]) h2
    exact abs_eq_zero.1 h3

/-- Witness for claim C4 at a concrete positive length. -/
theorem mode_shape_normalized_witness :
    (0 : ℝ) < 1 ∧
      (maxAbsList (calculateModeShape .simplySupported Real.pi 1).2 = 1 ∨
      ((calculateModeShape .simplySupported Real.pi 1).2 =
          (modeSamplePositions 1 0.01).map
            (rawModeValue .simplySupported Real.pi 1) ∧
        ∀ y ∈ (calculateModeShape .simplySupported Real.pi 1).2, y = 0)) :=
  ⟨by norm_num,
    mode_shape_normalized .simplySupported Real.pi 1 (by norm_num)⟩

/-- Reading a mapped range list at a valid index. -/
theorem getD_range_map (f : ℕ → ℝ) {n i : ℕ} (h : i < n) :
    ((List.range n).map f).getD i 0 = f i := by
  rw [List.getD_eq_getElem _ _ (by simpa using h)]
  simp

/-- All four eigenfunction formulas vanish at position `0`: with `bx = 0`,
`sin`, `sinh` are `0` and `cos`, `cosh` are `1`, so every case collapses. -/
theorem rawModeValue_at_zero (beamType : BeamType) (bL length : ℝ) :
    rawModeValue beamType bL length 0 = 0 := by
  cases beamType <;> simp [rawModeValue]

/-- Claim C10: for every beam type, root and positive length, the first mode
shape sample is at position `0` with displacement exactly `0`, both before
(`rawModeValue`) and after normalization. -/
theorem first_mode_sample_zero (beamType : BeamType) (bL length : ℝ)
    (h : 0 < length) :
    rawModeValue beamType bL length 0 = 0 ∧
    (calculateModeShape beamType bL length).1.getD 0 0 = 0 ∧
    (calculateModeShape beamType bL length).2.getD 0 0 = 0 := by
  have hraw := rawModeValue_at_zero beamType bL length
  have hpos : modeSamplePositions length 0.01 =
      (List.range (Nat.floor (length / 0.01) + 1)).map fun i : ℕ =>
        (i : ℝ) * 0.01 := by
    rw [modeSamplePositions, if_neg (not_lt.2 h.le)]
  have hx0 : (modeSamplePositions length 0.01).getD 0 0 = 0 := by
    rw [hpos, getD_range_map _ (Nat.succ_pos _)]
    simp
  refine ⟨hraw, ?_, ?_⟩
  · rw [calculateModeShape_fst]
    exact hx0
  · simp only [calculateModeShape, hpos, List.map_map]
    split
    · show (List.map _ (List.range _)).getD 0 0 = 0
      rw [getD_range_map _ (Nat.succ_pos _)]
      simp only [Function.comp_apply, Nat.cast_zero, zero_mul]
      rw [hraw, zero_div]
    · show (List.map _ (List.range _)).getD 0 0 = 0
      rw [getD_range_map _ (Nat.succ_pos _)]
      simp only [Function.comp_apply, Nat.cast_zero, zero_mul]
      exact hraw

/-- Witness for claim C10 at a concrete beam. -/
theorem first_mode_sample_zero_witness :
    (0 : ℝ) < 2 ∧
      (rawModeValue .cantilever 1.875 2 0 = 0 ∧
      (calculateModeShape .cantilever 1.875 2).1.getD 0 0 = 0 ∧
      (calculateModeShape .cantilever 1.875 2).2.getD 0 0 = 0) :=
  ⟨by norm_num, first_mode_sample_zero .cantilever 1.875 2 (by norm_num)⟩

/-! ### Static deflection -/

/-- Anatomy of a successful `calculateStaticDeflection` result: the sample
grid, the sampled deflections, and the tracked extremum. -/
theorem staticDeflection_mem_spec {beamType : BeamType}
    {p : BeamProperties} {load : ℝ} {sd : StaticDeflection}
    (hsd : calculateStaticDeflection beamType p load = some sd) :
    sd.x = (List.range 301).map (fun i : ℕ => (i : ℝ) * (p.length / 300)) ∧
    sd.y = (List.range 301).map (fun i : ℕ =>
      staticDeflectionAt beamType p.length
        (p.youngsModulus * (p.width * p.depth ^ 3 / 12)) load
        ((i : ℝ) * (p.length / 300))) ∧
    (sd.maxDeflection, sd.maxDeflectionLocation) =
      ((List.range 301).map (fun i : ℕ =>
        ((i : ℝ) * (p.length / 300),
          staticDeflectionAt beamType p.length
            (p.youngsModulus * (p.width * p.depth ^ 3 / 12)) load
            ((i : ℝ) * (p.length / 300))))).foldl maxStep (0, 0) := by
  simp only [calculateStaticDeflection] at hsd
  by_cases h : p.youngsModulus * (p.width * p.depth ^ 3 / 12) ≤ 0 ∨
      p.length ≤ 0
  · rw [if_pos h] at hsd
    cases hsd
  · rw [if_neg h] at hsd
    obtain rfl : _ = sd := Option.some.inj hsd
    refine ⟨rfl, ?_, ?_⟩
    · show (((List.range 301).map fun i : ℕ =>
        (i : ℝ) * (p.length / 300)).map _) = _
      rw [List.map_map]
      rfl
    · have hzip : (((List.range 301).map fun i : ℕ =>
          (i : ℝ) * (p.length / 300)).zip
            (List.map (staticDeflectionAt beamType p.length
              (p.youngsModulus * (p.width * p.depth ^ 3 / 12)) load)
              ((List.range 301).map fun i : ℕ =>
                (i : ℝ) * (p.length / 300)))) =
          (List.range 301).map (fun i : ℕ =>
            ((i : ℝ) * (p.length / 300),
              staticDeflectionAt beamType p.length
                (p.youngsModulus * (p.width * p.depth ^ 3 / 12)) load
                ((i : ℝ) * (p.length / 300)))) := by
        rw [List.map_map, List.zip_map']
        rfl
      show (_, _) = _
      rw [hzip]

/-- `calculateStaticDeflection` is absent exactly on the domain-invalid
inputs. -/
theorem staticDeflection_none_iff (beamType : BeamType)
    (p : BeamProperties) (load : ℝ) :
    calculateStaticDeflection beamType p load = none ↔
      (p.youngsModulus * (p.width * p.depth ^ 3 / 12) ≤ 0 ∨
        p.length ≤ 0) := by
  simp only [calculateStaticDeflection]
  by_cases h : p.youngsModulus * (p.width * p.depth ^ 3 / 12) ≤ 0 ∨
      p.length ≤ 0
  · rw [if_pos h]
    simp [h]
  · rw [if_neg h]
    simp [h]

/-- Claim C5: the static deflection is `none` exactly when `EI ≤ 0` or
`length ≤ 0`; otherwise it holds exactly 301 uniform samples spanning
`[0, length]`; and in either case the remaining `BeamResults` fields are
still computed. -/
theorem static_deflection_presence (beamType : BeamType)
    (p : BeamProperties) (numModes : ℕ) :
    (calculateBeamAnalysis beamType p numModes).staticDeflection =
      calculateStaticDeflection beamType p 1000 ∧
    (calculateStaticDeflection beamType p 1000 = none ↔
      (p.youngsModulus * (p.width * p.depth ^ 3 / 12) ≤ 0 ∨
        p.length ≤ 0)) ∧
    (∀ sd ∈ calculateStaticDeflection beamType p 1000,
      sd.x = (List.range 301).map (fun i : ℕ => (i : ℝ) * (p.length / 300)) ∧
      sd.x.length = 301 ∧ sd.x.getD 0 0 = 0 ∧ sd.x.getD 300 0 = p.length) ∧
    (calculateBeamAnalysis beamType p numModes).naturalFrequencies =
      (solveCharacteristicEquation beamType numModes).map
        (naturalFrequencyOf p) ∧
    (calculateBeamAnalysis beamType p numModes).flexuralRigidity =
      p.youngsModulus * (p.width * p.depth ^ 3 / 12) ∧
    (calculateBeamAnalysis beamType p numModes).massPerUnitLength =
      p.density * (p.width * p.depth) := by
  refine ⟨rfl, staticDeflection_none_iff beamType p 1000, ?_, rfl, rfl, rfl⟩
  intro sd hsd
  obtain ⟨hx, -, -⟩ := staticDeflection_mem_spec (Option.mem_def.1 hsd)
  refine ⟨hx, ?_, ?_, ?_⟩
  · rw [hx]
    simp
  · rw [hx, getD_range_map _ (by norm_num : (0 : ℕ) < 301)]
    simp
  · rw [hx, getD_range_map _ (by norm_num : (300 : ℕ) < 301)]
    push_cast
    ring

/-- Key symmetry of the midspan-loaded piecewise form: evaluating the
`if pos ≤ L/2 then f pos else f (L - pos)` shape at grid points `i` and
`300 - i` gives the same value, because the grid is uniform over `[0, L]`. -/
theorem midspan_symm (f : ℝ → ℝ) {L : ℝ} (hL : 0 < L) {i : ℕ}
    (hi : i ≤ 300) :
    (if (i : ℝ) * (L / 300) ≤ L / 2 then f ((i : ℝ) * (L / 300))
      else f (L - (i : ℝ) * (L / 300))) =
    (if ((300 - i : ℕ) : ℝ) * (L / 300) ≤ L / 2
      then f (((300 - i : ℕ) : ℝ) * (L / 300))
      else f (L - ((300 - i : ℕ) : ℝ) * (L / 300))) := by
  have hc : (0 : ℝ) < L / 300 := by positivity
  have hcast : ((300 - i : ℕ) : ℝ) = 300 - (i : ℝ) := by
    push_cast [hi]
    ring
  have hcond : ∀ z : ℝ, (z * (L / 300) ≤ L / 2 ↔ z ≤ 150) := by
    intro z
    constructor
    · intro hz
      by_contra hgt
      push_neg at hgt
      nlinarith
    · intro hz
      nlinarith
  rcases lt_trichotomy i 150 with h1 | h1 | h1
  · have hlt : (i : ℝ) ≤ 150 := by exact_mod_cast h1.le
    have hgt : ¬(((300 - i : ℕ) : ℝ) * (L / 300) ≤ L / 2) := by
      rw [hcond, hcast]
      push_neg
      have : (i : ℝ) < 150 := by exact_mod_cast h1
      linarith
    rw [if_pos ((hcond _).2 hlt), if_neg hgt, hcast]
    congr 1
    ring
  · subst h1
    norm_num
  · have hgt : ¬((i : ℝ) * (L / 300) ≤ L / 2) := by
      rw [hcond]
      push_neg
      exact_mod_cast h1
    have hle : ((300 - i : ℕ) : ℝ) ≤ 150 := by
      rw [hcast]
      have : (150 : ℝ) < (i : ℝ) := by exact_mod_cast h1
      linarith
    rw [if_neg hgt, if_pos ((hcond _).2 hle), hcast]
    congr 1
    ring

/-- Claim C7: for simply-supported and fixed-fixed beams with positive
length and positive flexural rigidity, the sampled static deflection is
mirror-symmetric: samples `i` and `300 - i` carry equal values. -/
theorem static_deflection_symmetric (beamType : BeamType)
    (p : BeamProperties)
    (hbt : beamType = .simplySupported ∨ beamType = .fixedFixed)
    (hL : 0 < p.length)
    (_hEI : 0 < p.youngsModulus * (p.width * p.depth ^ 3 / 12)) :
    ∀ sd ∈ calculateStaticDeflection beamType p 1000,
      ∀ i : ℕ, i ≤ 300 → sd.y.getD i 0 = sd.y.getD (300 - i) 0 := by
  intro sd hsd i hi
  obtain ⟨-, hy, -⟩ := staticDeflection_mem_spec (Option.mem_def.1 hsd)
  rw [hy, getD_range_map _ (by omega : i < 301),
    getD_range_map _ (by omega : 300 - i < 301)]
  rcases hbt with rfl | rfl
  · exact midspan_symm
      (fun pos => 1000 / (48 * (p.youngsModulus *
        (p.width * p.depth ^ 3 / 12))) *
        (3 * p.length ^ 2 * pos - 4 * pos ^ 3)) hL hi
  · exact midspan_symm
      (fun pos => 1000 / (192 * (p.youngsModulus *
        (p.width * p.depth ^ 3 / 12))) *
        (3 * p.length ^ 2 * pos - 4 * pos ^ 3)) hL hi

/-- Witness for claim C7 on a concrete simply-supported beam. -/
theorem static_deflection_symmetric_witness :
    (0 : ℝ) < (⟨1, 1, 1, 12, 1, none⟩ : BeamProperties).length ∧
    (0 : ℝ) < (⟨1, 1, 1, 12, 1, none⟩ : BeamProperties).youngsModulus *
      ((⟨1, 1, 1, 12, 1, none⟩ : BeamProperties).width *
        (⟨1, 1, 1, 12, 1, none⟩ : BeamProperties).depth ^ 3 / 12) ∧
    ∀ sd ∈ calculateStaticDeflection .simplySupported
        ⟨1, 1, 1, 12, 1, none⟩ 1000,
      ∀ i : ℕ, i ≤ 300 → sd.y.getD i 0 = sd.y.getD (300 - i) 0 :=
  ⟨by norm_num, by norm_num,
    static_deflection_symmetric .simplySupported ⟨1, 1, 1, 12, 1, none⟩
      (Or.inl rfl) (by norm_num) (by norm_num)⟩

/-! ### Locating the tracked extremum of the static deflection -/

/-- The running-maximum fold ignores elements that do not strictly exceed
the current maximum in absolute value. -/
theorem foldl_maxStep_no_update :
    ∀ (l : List (ℝ × ℝ)) (b : ℝ × ℝ), (∀ e ∈ l, |e.2| ≤ |b.1|) →
      l.foldl maxStep b = b := by
  intro l
  induction l with
  | nil => intro b _; rfl
  | cons e l ih =>
    intro b h
    simp only [List.foldl_cons]
    have hstep : maxStep b e = b := by
      unfold maxStep
      rw [if_neg (not_lt.2 (h e (List.mem_cons_self e l)))]
    rw [hstep]
    exact ih b fun e2 he2 => h e2 (List.mem_cons_of_mem e he2)

/-- If one element strictly dominates everything before it (and the initial
accumulator) and weakly dominates everything after it, the fold returns that
element's value and position. -/
theorem foldl_maxStep_locate :
    ∀ (l₁ : List (ℝ × ℝ)) (acc q : ℝ × ℝ) (l₂ : List (ℝ × ℝ)),
      |acc.1| < |q.2| → (∀ e ∈ l₁, |e.2| < |q.2|) →
      (∀ e ∈ l₂, |e.2| ≤ |q.2|) →
      (l₁ ++ q :: l₂).foldl maxStep acc = (q.2, q.1) := by
  intro l₁
  induction l₁ with
  | nil =>
    intro acc q l₂ h0 _ h2
    simp only [List.nil_append, List.foldl_cons]
    have hstep : maxStep acc q = (q.2, q.1) := by
      unfold maxStep
      rw [if_pos h0]
    rw [hstep]
    exact foldl_maxStep_no_update l₂ (q.2, q.1) h2
  | cons a l ih =>
    intro acc q l₂ h0 h1 h2
    simp only [List.cons_append, List.foldl_cons]
    have hnew : |(maxStep acc a).1| < |q.2| := by
      unfold maxStep
      split
      · exact h1 a (List.mem_cons_self a l)
      · exact h0
    exact ih (maxStep acc a) q l₂ hnew
      (fun e he => h1 e (List.mem_cons_of_mem a he)) h2

/-- The midspan-load cubic is nonnegative on `[0, L/2]`. -/
theorem cubic_nonneg {c L x : ℝ} (hc : 0 ≤ c) (hx : 0 ≤ x)
    (hxL : x ≤ L / 2) (hL : 0 ≤ L) :
    0 ≤ c * (3 * L ^ 2 * x - 4 * x ^ 3) := by
  have h1 : (0 : ℝ) ≤ L - 2 * x := by linarith
  have h2 : (0 : ℝ) ≤ L + 2 * x := by linarith
  have h3 : 0 ≤ 3 * L ^ 2 * x - 4 * x ^ 3 := by
    nlinarith [mul_nonneg (mul_nonneg hx h1) h2, mul_nonneg hx (sq_nonneg L)]
  exact mul_nonneg hc h3

/-- The midspan-load cubic is strictly increasing on `[0, L/2]`. -/
theorem cubic_strict_mono {c L a b : ℝ} (hc : 0 < c) (ha : 0 ≤ a)
    (hab : a < b) (hb : b ≤ L / 2) :
    c * (3 * L ^ 2 * a - 4 * a ^ 3) < c * (3 * L ^ 2 * b - 4 * b ^ 3) := by
  have hb0 : 0 < b := lt_of_le_of_lt ha hab
  have h1 : 0 < b - a := sub_pos.2 hab
  have h2 : a * a ≤ a * b := mul_le_mul_of_nonneg_left hab.le ha
  have h3 : a * b < b * b := by
    exact mul_lt_mul_of_pos_right hab hb0
  have h4 : b * b ≤ (L / 2) * (L / 2) :=
    mul_le_mul hb hb hb0.le (by linarith)
  have hS : 4 * (a * a + a * b + b * b) < 3 * L ^ 2 := by nlinarith
  have hprod : 0 < (b - a) * (3 * L ^ 2 - 4 * (a * a + a * b + b * b)) :=
    mul_pos h1 (by linarith)
  have hpoly : 3 * L ^ 2 * a - 4 * a ^ 3 < 3 * L ^ 2 * b - 4 * b ^ 3 := by
    nlinarith [hprod]
  exact mul_lt_mul_of_pos_left hpoly hc

/-- Splitting the 301-point grid around its midpoint index 150. -/
theorem range301_split (F : ℕ → ℝ × ℝ) :
    (List.range 301).map F =
      ((List.range 150).map F) ++
        (F 150 :: ((List.range 150).map fun j => F (151 + j))) := by
  rw [show (301 : ℕ) = 151 + 150 from rfl, List.range_add, List.map_append,
    List.map_map, show List.range 151 = List.range 150 ++ [150] from
      List.range_succ 150, List.map_append]
  simp [List.append_assoc, Function.comp]

/-- For the simply-supported deflection samples, the running maximum ends at
the midspan grid point. -/
theorem ss_fold_locate {L EI : ℝ} (hL : 0 < L) (hEI : 0 < EI) :
    ((((List.range 301).map fun i : ℕ =>
      ((i : ℝ) * (L / 300),
        staticDeflectionAt .simplySupported L EI 1000
          ((i : ℝ) * (L / 300)))).foldl maxStep (0, 0)).2 : ℝ) = L / 2 := by
  set c := L / 300 with hc_def
  have hc : 0 < c := by rw [hc_def]; positivity
  have hLc : L = 300 * c := by rw [hc_def]; ring
  have h150c : L / 2 = 150 * c := by rw [hc_def]; ring
  set F : ℕ → ℝ × ℝ := fun i : ℕ =>
    ((i : ℝ) * c, staticDeflectionAt .simplySupported L EI 1000
      ((i : ℝ) * c)) with hF_def
  have hsample_le : ∀ i : ℕ, i ≤ 150 → (F i).2 =
      1000 / (48 * EI) * (3 * L ^ 2 * ((i : ℝ) * c) -
        4 * ((i : ℝ) * c) ^ 3) := by
    intro i hi
    have hcond : (i : ℝ) * c ≤ L / 2 := by
      rw [h150c]
      exact mul_le_mul_of_nonneg_right (by exact_mod_cast hi) hc.le
    show (if (i : ℝ) * c ≤ L / 2 then
        1000 / (48 * EI) * (3 * L ^ 2 * ((i : ℝ) * c) -
          4 * ((i : ℝ) * c) ^ 3)
      else 1000 / (48 * EI) * (3 * L ^ 2 * (L - (i : ℝ) * c) -
          4 * (L - (i : ℝ) * c) ^ 3)) = _
    rw [if_pos hcond]
  have hsample_gt : ∀ j : ℕ, j < 150 → (F (151 + j)).2 =
      1000 / (48 * EI) * (3 * L ^ 2 * (((149 : ℝ) - j) * c) -
        4 * (((149 : ℝ) - j) * c) ^ 3) := by
    intro j hj
    have hgt : ¬(((151 + j : ℕ) : ℝ) * c ≤ L / 2) := by
      push_neg
      rw [h150c]
      have hcast : (150 : ℝ) < ((151 + j : ℕ) : ℝ) := by
        push_cast
        have := Nat.cast_nonneg (α := ℝ) j
        linarith
      exact mul_lt_mul_of_pos_right hcast hc
    have harg : L - ((151 + j : ℕ) : ℝ) * c = ((149 : ℝ) - j) * c := by
      push_cast
      rw [hLc]
      ring
    show (if ((151 + j : ℕ) : ℝ) * c ≤ L / 2 then
        1000 / (48 * EI) * (3 * L ^ 2 * (((151 + j : ℕ) : ℝ) * c) -
          4 * (((151 + j : ℕ) : ℝ) * c) ^ 3)
      else 1000 / (48 * EI) * (3 * L ^ 2 * (L - ((151 + j : ℕ) : ℝ) * c) -
          4 * (L - ((151 + j : ℕ) : ℝ) * c) ^ 3)) = _
    rw [if_neg hgt, harg]
  have h150v : (F 150).2 =
      1000 / (48 * EI) * (3 * L ^ 2 * (L / 2) - 4 * (L / 2) ^ 3) := by
    rw [hsample_le 150 le_rfl]
    rw [show ((150 : ℕ) : ℝ) * c = L / 2 by push_cast; rw [h150c]]
  have h150pos : 0 < (F 150).2 := by
    rw [h150v, show 3 * L ^ 2 * (L / 2) - 4 * (L / 2) ^ 3 = L ^ 3 by ring]
    positivity
  have hlt : ∀ i : ℕ, i < 150 → |(F i).2| < |(F 150).2| := by
    intro i hi
    have ha : (0 : ℝ) ≤ (i : ℝ) * c := by positivity
    have hab : (i : ℝ) * c < L / 2 := by
      rw [h150c]
      exact mul_lt_mul_of_pos_right (by exact_mod_cast hi) hc
    have hnn : 0 ≤ (F i).2 := by
      rw [hsample_le i hi.le]
      exact cubic_nonneg (by positivity) ha hab.le hL.le
    have hmono : (F i).2 < (F 150).2 := by
      rw [hsample_le i hi.le, h150v]
      exact cubic_strict_mono (by positivity) ha hab le_rfl
    rw [abs_of_nonneg hnn, abs_of_nonneg h150pos.le]
    exact hmono
  have hle2 : ∀ j : ℕ, j < 150 → |(F (151 + j)).2| ≤ |(F 150).2| := by
    intro j hj
    have hj149 : (j : ℝ) ≤ 149 := by exact_mod_cast Nat.lt_succ_iff.1 hj
    have ha : (0 : ℝ) ≤ ((149 : ℝ) - j) * c :=
      mul_nonneg (by linarith) hc.le
    have hab : ((149 : ℝ) - j) * c < L / 2 := by
      rw [h150c]
      have := Nat.cast_nonneg (α := ℝ) j
      exact mul_lt_mul_of_pos_right (by linarith) hc
    have hnn : 0 ≤ (F (151 + j)).2 := by
      rw [hsample_gt j hj]
      exact cubic_nonneg (by positivity) ha hab.le hL.le
    have hmono : (F (151 + j)).2 < (F 150).2 := by
      rw [hsample_gt j hj, h150v]
      exact cubic_strict_mono (by positivity) ha hab le_rfl
    rw [abs_of_nonneg hnn, abs_of_nonneg h150pos.le]
    exact hmono.le
  have h0 : |((0, 0) : ℝ × ℝ).1| < |(F 150).2| := by
    show |(0 : ℝ)| < _
    rw [abs_zero, abs_of_nonneg h150pos.le]
    exact h150pos
  have h1 : ∀ e ∈ (List.range 150).map F, |e.2| < |(F 150).2| := by
    intro e he
    obtain ⟨i, hi, rfl⟩ := List.mem_map.1 he
    exact hlt i (List.mem_range.1 hi)
  have h2 : ∀ e ∈ (List.range 150).map (fun j => F (151 + j)),
      |e.2| ≤ |(F 150).2| := by
    intro e he
    obtain ⟨j, hj, rfl⟩ := List.mem_map.1 he
    exact hle2 j (List.mem_range.1 hj)
  rw [range301_split F, foldl_maxStep_locate ((List.range 150).map F)
    (0, 0) (F 150) ((List.range 150).map fun j => F (151 + j)) h0 h1 h2]
  show ((150 : ℕ) : ℝ) * c = L / 2
  push_cast
  rw [h150c]

/-- Claim C8: for every simply-supported beam with positive length, width,
depth and Young's modulus, the reported maximum-deflection location is
exactly midspan `length / 2`. -/
theorem max_deflection_at_midspan (p : BeamProperties)
    (hL : 0 < p.length) (hw : 0 < p.width) (hd : 0 < p.depth)
    (hE : 0 < p.youngsModulus) :
    ∀ sd ∈ calculateStaticDeflection .simplySupported p 1000,
      sd.maxDeflectionLocation = p.length / 2 := by
  intro sd hsd
  have hEI : 0 < p.youngsModulus * (p.width * p.depth ^ 3 / 12) := by
    positivity
  obtain ⟨-, -, hmax⟩ := staticDeflection_mem_spec (Option.mem_def.1 hsd)
  have hloc := congrArg Prod.snd hmax
  simp only at hloc
  rw [hloc]
  exact ss_fold_locate hL hEI

/-- Witness for claim C8 on a concrete simply-supported beam. -/
theorem max_deflection_at_midspan_witness :
    (0 : ℝ) < (⟨1, 1, 1, 12, 1, none⟩ : BeamProperties).length ∧
    ∀ sd ∈ calculateStaticDeflection .simplySupported
        ⟨1, 1, 1, 12, 1, none⟩ 1000,
      sd.maxDeflectionLocation =
        (⟨1, 1, 1, 12, 1, none⟩ : BeamProperties).length / 2 :=
  ⟨by norm_num,
    max_deflection_at_midspan ⟨1, 1, 1, 12, 1, none⟩ (by norm_num)
      (by norm_num) (by norm_num) (by norm_num)⟩

/-! ### Scaling laws -/

/-- The `bL` values carried by the mode shapes are exactly the solver's
roots, for any properties. -/
theorem modeShapes_map_bL (beamType : BeamType) (p : BeamProperties)
    (numModes : ℕ) :
    (calculateBeamAnalysis beamType p numModes).modeShapes.map ModeShape.bL =
      solveCharacteristicEquation beamType numModes := by
  show ((solveCharacteristicEquation beamType numModes).enum.map _).map
    ModeShape.bL = _
  rw [List.map_map]
  exact List.enum_map_snd _

/-- Doubling Young's modulus multiplies the frequency formula by `√2`. -/
theorem naturalFrequencyOf_double_E (p : BeamProperties) (bL : ℝ) :
    naturalFrequencyOf { p with youngsModulus := 2 * p.youngsModulus } bL =
      Real.sqrt 2 * naturalFrequencyOf p bL := by
  show bL ^ 2 * Real.sqrt ((2 * p.youngsModulus) *
      (p.width * p.depth ^ 3 / 12) /
      (p.density * (p.width * p.depth) * p.length ^ 4)) / (2 * Real.pi) =
    Real.sqrt 2 * (bL ^ 2 * Real.sqrt (p.youngsModulus *
      (p.width * p.depth ^ 3 / 12) /
      (p.density * (p.width * p.depth) * p.length ^ 4)) / (2 * Real.pi))
  rw [show (2 * p.youngsModulus) * (p.width * p.depth ^ 3 / 12) /
      (p.density * (p.width * p.depth) * p.length ^ 4) =
      2 * (p.youngsModulus * (p.width * p.depth ^ 3 / 12) /
        (p.density * (p.width * p.depth) * p.length ^ 4)) from by ring]
  rw [Real.sqrt_mul (by norm_num : (0 : ℝ) ≤ 2)]
  ring

/-- Scaling the length by `k > 0` divides the frequency formula by `k²`. -/
theorem naturalFrequencyOf_scale_L (p : BeamProperties) (bL k : ℝ)
    (hk : 0 < k) :
    naturalFrequencyOf { p with length := k * p.length } bL =
      naturalFrequencyOf p bL / k ^ 2 := by
  show bL ^ 2 * Real.sqrt (p.youngsModulus *
      (p.width * p.depth ^ 3 / 12) /
      (p.density * (p.width * p.depth) * (k * p.length) ^ 4)) /
      (2 * Real.pi) =
    bL ^ 2 * Real.sqrt (p.youngsModulus * (p.width * p.depth ^ 3 / 12) /
      (p.density * (p.width * p.depth) * p.length ^ 4)) / (2 * Real.pi) /
      k ^ 2
  rw [show p.youngsModulus * (p.width * p.depth ^ 3 / 12) /
      (p.density * (p.width * p.depth) * (k * p.length) ^ 4) =
      p.youngsModulus * (p.width * p.depth ^ 3 / 12) /
        (p.density * (p.width * p.depth) * p.length ^ 4) *
        (1 / k ^ 2) ^ 2 from by ring]
  rw [Real.sqrt_mul' _ (sq_nonneg (1 / k ^ 2)),
    Real.sqrt_sq (by positivity : (0 : ℝ) ≤ 1 / k ^ 2)]
  ring

/-- Claim C9: with everything else fixed, doubling Young's modulus scales
every natural frequency by `√2` and scaling the length by `k > 0` scales
every natural frequency by `1/k²`, while the returned roots `bL` are
unchanged by either modification. -/
theorem frequency_scaling (beamType : BeamType) (p : BeamProperties)
    (numModes : ℕ) (k : ℝ) (hk : 0 < k) :
    (calculateBeamAnalysis beamType
        { p with youngsModulus := 2 * p.youngsModulus }
        numModes).naturalFrequencies =
      (calculateBeamAnalysis beamType p numModes).naturalFrequencies.map
        (fun f => Real.sqrt 2 * f) ∧
    (calculateBeamAnalysis beamType { p with length := k * p.length }
        numModes).naturalFrequencies =
      (calculateBeamAnalysis beamType p numModes).naturalFrequencies.map
        (fun f => f / k ^ 2) ∧
    (calculateBeamAnalysis beamType
        { p with youngsModulus := 2 * p.youngsModulus }
        numModes).modeShapes.map ModeShape.bL =
      (calculateBeamAnalysis beamType p numModes).modeShapes.map
        ModeShape.bL ∧
    (calculateBeamAnalysis beamType { p with length := k * p.length }
        numModes).modeShapes.map ModeShape.bL =
      (calculateBeamAnalysis beamType p numModes).modeShapes.map
        ModeShape.bL := by
  refine ⟨?_, ?_, ?_, ?_⟩
  · show (solveCharacteristicEquation beamType numModes).map
      (naturalFrequencyOf { p with youngsModulus := 2 * p.youngsModulus }) =
      ((solveCharacteristicEquation beamType numModes).map
        (naturalFrequencyOf p)).map fun f => Real.sqrt 2 * f
    rw [List.map_map]
    exact List.map_congr_left fun bL _ => naturalFrequencyOf_double_E p bL
  · show (solveCharacteristicEquation beamType numModes).map
      (naturalFrequencyOf { p with length := k * p.length }) =
      ((solveCharacteristicEquation beamType numModes).map
        (naturalFrequencyOf p)).map fun f => f / k ^ 2
    rw [List.map_map]
    exact List.map_congr_left fun bL _ => naturalFrequencyOf_scale_L p bL k hk
  · rw [modeShapes_map_bL, modeShapes_map_bL]
  · rw [modeShapes_map_bL, modeShapes_map_bL]

/-- Witness for claim C9 at a concrete beam and `k = 2`. -/
theorem frequency_scaling_witness :
    (0 : ℝ) < 2 ∧
    ((calculateBeamAnalysis .cantilever
        { (⟨2, 0.1, 0.3, 205000000000, 7830, none⟩ : BeamProperties) with
          youngsModulus := 2 * (⟨2, 0.1, 0.3, 205000000000, 7830,
            none⟩ : BeamProperties).youngsModulus }
        3).naturalFrequencies =
      (calculateBeamAnalysis .cantilever
        ⟨2, 0.1, 0.3, 205000000000, 7830, none⟩ 3).naturalFrequencies.map
        (fun f => Real.sqrt 2 * f) ∧
    (calculateBeamAnalysis .cantilever
        { (⟨2, 0.1, 0.3, 205000000000, 7830, none⟩ : BeamProperties) with
          length := 2 * (⟨2, 0.1, 0.3, 205000000000, 7830,
            none⟩ : BeamProperties).length }
        3).naturalFrequencies =
      (calculateBeamAnalysis .cantilever
        ⟨2, 0.1, 0.3, 205000000000, 7830, none⟩ 3).naturalFrequencies.map
        (fun f => f / 2 ^ 2) ∧
    (calculateBeamAnalysis .cantilever
        { (⟨2, 0.1, 0.3, 205000000000, 7830, none⟩ : BeamProperties) with
          youngsModulus := 2 * (⟨2, 0.1, 0.3, 205000000000, 7830,
            none⟩ : BeamProperties).youngsModulus }
        3).modeShapes.map ModeShape.bL =
      (calculateBeamAnalysis .cantilever
        ⟨2, 0.1, 0.3, 205000000000, 7830, none⟩ 3).modeShapes.map
        ModeShape.bL ∧
    (calculateBeamAnalysis .cantilever
        { (⟨2, 0.1, 0.3, 205000000000, 7830, none⟩ : BeamProperties) with
          length := 2 * (⟨2, 0.1, 0.3, 205000000000, 7830,
            none⟩ : BeamProperties).length }
        3).modeShapes.map ModeShape.bL =
      (calculateBeamAnalysis .cantilever
        ⟨2, 0.1, 0.3, 205000000000, 7830, none⟩ 3).modeShapes.map
        ModeShape.bL) :=
  ⟨by norm_num,
    frequency_scaling .cantilever ⟨2, 0.1, 0.3, 205000000000, 7830, none⟩ 3 2
      (by norm_num)⟩

/-! ### Damped response -/

/-- Anatomy of a successful `calculateDampedResponse`: the displacement and
upper-envelope sample lists in closed form. -/
theorem dampedResponse_mem_spec {f zeta dur A : ℝ} {r : DampedResponse}
    (hr : calculateDampedResponse f zeta dur A = some r) :
    r.displacement = (List.range 1001).map (fun i : ℕ =>
      A * Real.exp (-(zeta * (f * 2 * Real.pi) * ((i : ℝ) * (dur / 1000)))) *
        Real.cos (f * 2 * Real.pi * Real.sqrt (1 - zeta * zeta) *
          ((i : ℝ) * (dur / 1000)))) ∧
    r.envelope.upper = (List.range 101).map (fun j : ℕ =>
      A * Real.exp (-(zeta * (f * 2 * Real.pi) *
        (((10 * j : ℕ) : ℝ) * (dur / 1000))))) := by
  simp only [calculateDampedResponse] at hr
  by_cases h : zeta ≤ 0 ∨ 1 ≤ zeta
  · rw [if_pos h] at hr
    cases hr
  · rw [if_neg h] at hr
    obtain rfl : _ = r := Option.some.inj hr
    constructor
    · dsimp only
      rw [List.map_map]
      rfl
    · dsimp only
      rw [List.map_map]
      rfl

/-- Claim C6, amended: for `0 < ζ < 1`, positive natural frequency and
duration, and nonnegative initial amplitude, the displacement at time `0`
equals the initial amplitude, and every sampled displacement is bounded in
absolute value by the upper envelope at the latest envelope sample at or
before it (envelope index `i / 10` for displacement index `i`). -/
theorem damped_response_envelope (f zeta dur A : ℝ)
    (hz0 : 0 < zeta) (hz1 : zeta < 1) (hf : 0 < f) (hdur : 0 < dur)
    (hA : 0 ≤ A) :
    ∀ r ∈ calculateDampedResponse f zeta dur A,
      r.displacement.getD 0 0 = A ∧
      ∀ i : ℕ, i ≤ 1000 →
        |r.displacement.getD i 0| ≤ r.envelope.upper.getD (i / 10) 0 := by
  intro r hr
  obtain ⟨hdisp, hup⟩ := dampedResponse_mem_spec (Option.mem_def.1 hr)
  constructor
  · rw [hdisp, getD_range_map _ (by norm_num : (0 : ℕ) < 1001)]
    simp
  · intro i hi
    rw [hdisp, hup, getD_range_map _ (by omega : i < 1001),
      getD_range_map _ (by omega : i / 10 < 101)]
    have homega : (0 : ℝ) < f * 2 * Real.pi := by positivity
    have hdt : (0 : ℝ) < dur / 1000 := by positivity
    have hzw : (0 : ℝ) < zeta * (f * 2 * Real.pi) := mul_pos hz0 homega
    have htj : ((10 * (i / 10) : ℕ) : ℝ) * (dur / 1000) ≤
        (i : ℝ) * (dur / 1000) := by
      apply mul_le_mul_of_nonneg_right _ hdt.le
      exact_mod_cast (by omega : 10 * (i / 10) ≤ i)
    have hexp : Real.exp (-(zeta * (f * 2 * Real.pi) *
        ((i : ℝ) * (dur / 1000)))) ≤
        Real.exp (-(zeta * (f * 2 * Real.pi) *
          (((10 * (i / 10) : ℕ) : ℝ) * (dur / 1000)))) := by
      apply Real.exp_le_exp.2
      have := mul_le_mul_of_nonneg_left htj hzw.le
      linarith
    have hAe : 0 ≤ A * Real.exp (-(zeta * (f * 2 * Real.pi) *
        ((i : ℝ) * (dur / 1000)))) :=
      mul_nonneg hA (Real.exp_pos _).le
    calc |A * Real.exp (-(zeta * (f * 2 * Real.pi) *
          ((i : ℝ) * (dur / 1000)))) *
          Real.cos (f * 2 * Real.pi * Real.sqrt (1 - zeta * zeta) *
            ((i : ℝ) * (dur / 1000)))|
        = A * Real.exp (-(zeta * (f * 2 * Real.pi) *
            ((i : ℝ) * (dur / 1000)))) *
          |Real.cos (f * 2 * Real.pi * Real.sqrt (1 - zeta * zeta) *
            ((i : ℝ) * (dur / 1000)))| := by
          rw [abs_mul, abs_of_nonneg hAe]
      _ ≤ A * Real.exp (-(zeta * (f * 2 * Real.pi) *
            ((i : ℝ) * (dur / 1000)))) * 1 :=
          mul_le_mul_of_nonneg_left (Real.abs_cos_le_one _) hAe
      _ = A * Real.exp (-(zeta * (f * 2 * Real.pi) *
            ((i : ℝ) * (dur / 1000)))) := mul_one _
      _ ≤ A * Real.exp (-(zeta * (f * 2 * Real.pi) *
            (((10 * (i / 10) : ℕ) : ℝ) * (dur / 1000)))) :=
          mul_le_mul_of_nonneg_left hexp hA

/-- Witness for the amended claim C6 at a concrete damped response. -/
theorem damped_response_envelope_witness :
    ((0 : ℝ) < 1 / 2 ∧ (1 : ℝ) / 2 < 1 ∧ (0 : ℝ) < 1) ∧
      ∀ r ∈ calculateDampedResponse 1 (1 / 2) 1 1,
        r.displacement.getD 0 0 = 1 ∧
        ∀ i : ℕ, i ≤ 1000 →
          |r.displacement.getD i 0| ≤ r.envelope.upper.getD (i / 10) 0 :=
  ⟨⟨by norm_num, by norm_num, by norm_num⟩,
    damped_response_envelope 1 (1 / 2) 1 1 (by norm_num) (by norm_num)
      (by norm_num) (by norm_num) (by norm_num)⟩

/-- Counterexample to claim C6 as stated: with natural frequency 1250 Hz,
`ζ = 3/5` (so the damped frequency is exactly 1000 Hz), duration 1 s and
amplitude 1, displacement sample 7 has `cos` argument exactly `14π`, so its
magnitude is `e^(-10.5π)`, while the nearest sampled envelope point is index
1 (time 0.01 s) whose value is the smaller `e^(-15π)`. -/
theorem damped_response_nearest_counterexample :
    ∃ r, calculateDampedResponse 1250 (3 / 5) 1 1 = some r ∧
      r.envelope.upper.getD ((7 + 5) / 10) 0 < |r.displacement.getD 7 0| ∧
      ¬(∀ i : ℕ, i ≤ 1000 →
        |r.displacement.getD i 0| ≤
          r.envelope.upper.getD ((i + 5) / 10) 0) := by
  obtain ⟨r, hr⟩ : ∃ r, calculateDampedResponse 1250 (3 / 5) 1 1 = some r := by
    simp only [calculateDampedResponse]
    rw [if_neg (by norm_num)]
    exact ⟨_, rfl⟩
  obtain ⟨hdisp, hup⟩ := dampedResponse_mem_spec hr
  have hkey : r.envelope.upper.getD 1 0 < |r.displacement.getD 7 0| := by
    rw [hdisp, hup, getD_range_map _ (by norm_num : (7 : ℕ) < 1001),
      getD_range_map _ (by norm_num : (1 : ℕ) < 101)]
    have hsqrt : Real.sqrt (1 - (3 : ℝ) / 5 * (3 / 5)) = 4 / 5 := by
      rw [show (1 : ℝ) - 3 / 5 * (3 / 5) = (4 / 5) ^ 2 by norm_num]
      exact Real.sqrt_sq (by norm_num)
    rw [hsqrt]
    have hcosarg : (1250 : ℝ) * 2 * Real.pi * (4 / 5) *
        (((7 : ℕ) : ℝ) * (1 / 1000)) = ((7 : ℕ) : ℝ) * (2 * Real.pi) := by
      push_cast
      ring
    rw [hcosarg, Real.cos_nat_mul_two_pi]
    simp only [one_mul, mul_one]
    rw [abs_of_pos (Real.exp_pos _), Real.exp_lt_exp]
    push_cast
    nlinarith [Real.pi_pos]
  refine ⟨r, hr, hkey, ?_⟩
  intro hclaim
  exact (not_le.2 hkey) (hclaim 7 (by norm_num))

end

end BeamAnalysis
